import Mathlib

/-!
Verification development for the google_drive_organizer repository.

The repository's frontend (Next.js, TypeScript) and database schema are in the
source tree; the FastAPI backend that implements the apply/undo engine
(apps/api/main.py) is referenced by the callers, tests and schema but its code
is not present.  Those engine operations are therefore modelled from the spec
(sections 4.1, 4.2, 4.3), while the UI helpers (formatFileSize,
transformToD3Tree) and the Next.js proxy routes are translated directly from
their TypeScript sources.
-/

namespace DriveOrganizer

/-- Association-list lookup keyed by strings, used for all keyed stores
(file id to parent ids, proposal id to proposal, log id to entry). -/
def lookupKey {β : Type} (k : String) : List (String × β) → Option β
  | [] => none
  | (k₂, v) :: l => if k = k₂ then some v else lookupKey k l

/-- Proposal status enum, from supabase/migrations/001_initial_schema.sql:
CREATE TYPE proposal_status AS ENUM ('draft', 'applied', 'reverted'). -/
inductive ProposalStatus where
  | draft
  | applied
  | reverted
deriving DecidableEq, Repr

/-- A file-move intent of a proposal: file id, source parent, proposed folder
name (spec section 3, Proposal attributes, and section 6 Classifier output). -/
structure MoveIntent where
  file_id : String
  current_parent : String
  proposed_folder : String
deriving DecidableEq, Repr

/-- A proposal: owner, ordered file-move intents, status (spec section 3;
status column from session_proposals in 001_initial_schema.sql). -/
structure Proposal where
  owner : String
  moves : List MoveIntent
  status : ProposalStatus
deriving DecidableEq, Repr

/-- One executed move record of a change log entry:
file id, previous parent id(s), new parent id (spec section 3, Change Log). -/
structure MoveRecord where
  file_id : String
  previous_parents : List String
  new_parent : String
deriving DecidableEq, Repr

/-- A change log (undo) entry, mirroring the undo_logs table of
001_initial_schema.sql: owner, proposal reference, ordered executed move
records (changes jsonb), reverted flag. -/
structure ChangeLogEntry where
  owner : String
  proposal_id : String
  changes : List MoveRecord
  reverted : Bool
deriving DecidableEq, Repr

/-- A call issued to the Drive Gateway (spec section 6): folder creation,
resolution of an already existing folder by name, or a file move. -/
inductive GatewayCall where
  | createFolder (nm fid : String)
  | resolveExisting (nm fid : String)
  | moveFile (fid : String) (removeParents addParents : List String)
deriving DecidableEq, Repr

/-- Modelled from the spec: the Drive-side state seen through the Drive
Gateway (the real Google Drive is external; apps/api/drive_client is not in
the source tree).  Maps each file id to its parent ids, records existing
folders (id and name), and holds a counter for fresh folder ids. -/
structure DriveState where
  fileParents : List (String × List String)
  folderNames : List (String × String)
  nextId : Nat
deriving DecidableEq, Repr

/-- Current parent set of a file in the Drive model (empty when unknown). -/
def lookupParents (d : DriveState) (fid : String) : List String :=
  (lookupKey fid d.fileParents).getD []

/-- Drive Gateway move operation result on state: the file's parent set
becomes exactly the destination list (remove old parents, add new parents). -/
def setParents (d : DriveState) (fid : String) (ps : List String) : DriveState :=
  { d with fileParents := (fid, ps) :: d.fileParents }

/-- Look up an existing Drive folder by name. -/
def findFolder (d : DriveState) (nm : String) : Option String :=
  (d.folderNames.find? (fun p => p.2 = nm)).map (fun p => p.1)

/-- Drive Gateway create_folder: returns a fresh folder id and the grown
Drive state. -/
def createFolder (d : DriveState) (nm : String) : String × DriveState :=
  ("folder-" ++ toString d.nextId,
   { d with folderNames := ("folder-" ++ toString d.nextId, nm) :: d.folderNames,
            nextId := d.nextId + 1 })

/-- Result of resolving one destination folder name during an apply run. -/
structure ResolveOut where
  fid : String
  drive : DriveState
  cache : List (String × String)
  events : List GatewayCall
deriving Repr

/-- Modelled from the spec (section 4.1 step 1): resolve or create the
destination folder, memoized by name within the run via a name-to-id cache;
an existing Drive folder of that name is reused, otherwise create_folder is
called. -/
def resolveFolder (d : DriveState) (cache : List (String × String)) (nm : String) :
    ResolveOut :=
  match lookupKey nm cache with
  | some fid => ⟨fid, d, cache, []⟩
  | none =>
    match findFolder d nm with
    | some fid => ⟨fid, d, (nm, fid) :: cache, [GatewayCall.resolveExisting nm fid]⟩
    | none =>
      let c := createFolder d nm
      ⟨c.1, c.2, (nm, c.1) :: cache, [GatewayCall.createFolder nm c.1]⟩

/-- Result of executing the moves of an apply run. -/
structure ApplyMovesOut where
  drive : DriveState
  records : List MoveRecord
  trace : List GatewayCall
  ok : Bool
  cache : List (String × String)
deriving Repr

/-- Modelled from the spec (section 4.1 steps 1-4 and partial-failure
policy): execute the file-move intents sequentially; for each, resolve the
destination folder, record the file's current parents before mutating, invoke
the gateway move, and append a record; on the first gateway move failure
(indicated by the failure oracle at that move's index) stop, keeping only the
records completed so far. -/
def applyMoves (fails : Nat → Bool) :
    List MoveIntent → Nat → DriveState → List (String × String) → ApplyMovesOut
  | [], _, d, cache => ⟨d, [], [], true, cache⟩
  | m :: ms, i, d, cache =>
    let r := resolveFolder d cache m.proposed_folder
    let prev := lookupParents r.drive m.file_id
    let mv := GatewayCall.moveFile m.file_id prev [r.fid]
    if fails i then
      ⟨r.drive, [], r.events ++ [mv], false, r.cache⟩
    else
      let rest := applyMoves fails ms (i + 1) (setParents r.drive m.file_id [r.fid]) r.cache
      ⟨rest.drive, ⟨m.file_id, prev, r.fid⟩ :: rest.records,
       r.events ++ mv :: rest.trace, rest.ok, rest.cache⟩

/-- Result of executing the inverse moves of an undo run. -/
structure UndoMovesOut where
  drive : DriveState
  trace : List GatewayCall
  completed : Nat
  ok : Bool
deriving Repr

/-- Modelled from the spec (section 4.2): process move records sequentially,
invoking for each the gateway move with source the record's new_parent and
destination its previous_parents; stop on the first gateway failure. -/
def undoMoves (fails : Nat → Bool) : List MoveRecord → Nat → DriveState → UndoMovesOut
  | [], _, d => ⟨d, [], 0, true⟩
  | r :: rs, i, d =>
    let mv := GatewayCall.moveFile r.file_id [r.new_parent] r.previous_parents
    if fails i then
      ⟨d, [mv], 0, false⟩
    else
      let rest := undoMoves fails rs (i + 1) (setParents d r.file_id r.previous_parents)
      ⟨rest.drive, mv :: rest.trace, rest.completed + 1, rest.ok⟩

/-- Error taxonomy relevant to apply/undo preconditions (spec section 7). -/
inductive OpError where
  | invalidState
deriving DecidableEq, Repr

/-- Persistent system state: proposal store, change-log store, Drive state,
fresh-id counter for log entries. -/
structure SystemState where
  proposals : List (String × Proposal)
  logs : List (String × ChangeLogEntry)
  drive : DriveState
  nextLogId : Nat
deriving DecidableEq, Repr

/-- Result of a successful apply call: the new system state, the id and value
of the persisted change log entry, the gateway call trace, and, on partial
failure, the count of completed versus remaining moves. -/
structure ApplyResult where
  state : SystemState
  logId : String
  entry : ChangeLogEntry
  trace : List GatewayCall
  failure : Option (Nat × Nat)
deriving DecidableEq, Repr

/-- Modelled from the spec (section 4.1 contract, the apply engine of the
absent apps/api/main.py): check the preconditions (proposal exists, belongs
to actor, status is draft; violation fails with InvalidStateError), execute
the moves sequentially, persist the change log entry with exactly the moves
completed, set the proposal status to applied, and surface a partial failure
with the completed versus remaining counts. -/
def applyProposal (s : SystemState) (pid actor : String) (fails : Nat → Bool) :
    Except OpError ApplyResult :=
  match lookupKey pid s.proposals with
  | none => .error .invalidState
  | some p =>
    if p.owner ≠ actor then .error .invalidState
    else if p.status ≠ .draft then .error .invalidState
    else
      let a := applyMoves fails p.moves 0 s.drive []
      let entry : ChangeLogEntry := ⟨p.owner, pid, a.records, false⟩
      let logId := "log-" ++ toString s.nextLogId
      .ok ⟨{ proposals := (pid, { p with status := .applied }) :: s.proposals,
             logs := (logId, entry) :: s.logs,
             drive := a.drive,
             nextLogId := s.nextLogId + 1 },
           logId, entry, a.trace,
           if a.ok then none else some (a.records.length, p.moves.length - a.records.length)⟩

/-- Result of a successful undo call: the new system state, the gateway call
trace, and, on partial failure, completed versus remaining counts. -/
structure UndoResult where
  state : SystemState
  trace : List GatewayCall
  failure : Option (Nat × Nat)
deriving DecidableEq, Repr

/-- Modelled from the spec (section 4.2 contract, the undo engine of the
absent apps/api/main.py): check the preconditions (entry exists, belongs to
actor, not already reverted; violation fails with InvalidStateError), replay
the recorded moves in reverse order with swapped direction; on full success
mark the entry reverted and set the proposal status to reverted; on partial
failure leave the entry unreverted and record progress. -/
def undoEntry (s : SystemState) (logId actor : String) (fails : Nat → Bool) :
    Except OpError UndoResult :=
  match lookupKey logId s.logs with
  | none => .error .invalidState
  | some e =>
    if e.owner ≠ actor then .error .invalidState
    else if e.reverted then .error .invalidState
    else
      let u := undoMoves fails e.changes.reverse 0 s.drive
      if u.ok then
        .ok ⟨{ s with
               drive := u.drive,
               logs := (logId, { e with reverted := true }) :: s.logs,
               proposals :=
                 match lookupKey e.proposal_id s.proposals with
                 | some p => (e.proposal_id, { p with status := .reverted }) :: s.proposals
                 | none => s.proposals },
             u.trace, none⟩
      else
        .ok ⟨{ s with drive := u.drive }, u.trace,
             some (u.completed, e.changes.length - u.completed)⟩

/-- A gateway failure oracle under which every move succeeds. -/
def noFail : Nat → Bool := fun _ => false

/-- Status of a proposal in a system state, none when the proposal is
unknown. -/
def statusOf (s : SystemState) (pid : String) : Option ProposalStatus :=
  (lookupKey pid s.proposals).map Proposal.status

/-- The operations that drive the proposal state machine (spec section 4.3):
proposal creation by the Proposal Store, apply, undo. -/
inductive Op where
  | newProposal (pid owner : String) (moves : List MoveIntent)
  | applyP (pid actor : String) (fails : Nat → Bool)
  | undoL (logId actor : String) (fails : Nat → Bool)

/-- Modelled from the spec (sections 4.3 and 5): one step of the system.
Proposal creation only installs a fresh id (the store generates fresh ids);
apply and undo leave the state unchanged when they fail their
preconditions. -/
def step (s : SystemState) : Op → SystemState
  | .newProposal pid owner moves =>
    if (lookupKey pid s.proposals).isSome then s
    else { s with proposals := (pid, ⟨owner, moves, .draft⟩) :: s.proposals }
  | .applyP pid actor fails =>
    match applyProposal s pid actor fails with
    | .ok r => r.state
    | .error _ => s
  | .undoL logId actor fails =>
    match undoEntry s logId actor fails with
    | .ok r => r.state
    | .error _ => s

/-- States reachable from an empty store over an arbitrary initial Drive. -/
inductive Reachable : SystemState → Prop
  | init (d : DriveState) : Reachable ⟨[], [], d, 0⟩
  | step (s : SystemState) (op : Op) : Reachable s → Reachable (step s op)

/-! ## formatFileSize (TreeList.tsx, TreeDiagram.tsx, AIProposalView.tsx)

The three TypeScript copies take an optional numeric byte count; Drive file
sizes are nonnegative integers, modelled as Option Nat (none for undefined).
The JavaScript guard if (not bytes) is true exactly for undefined and 0 on
this domain. -/

/-- The sizes array of formatFileSize. -/
def sizesUnits : List String := ["Bytes", "KB", "MB", "GB"]

/-- Integer model of Math.floor(Math.log(bytes) / Math.log(1024)) on positive
integer inputs. -/
def sizeExponent (n : Nat) : Nat := Nat.log 1024 n

/-- Model of the final return of formatFileSize,
parseFloat((bytes / Math.pow(k, i)).toFixed(2)) plus the unit: the scaled
value with up to two decimal places (decimal part truncated here where
toFixed rounds; the difference is irrelevant to the guard behaviour under
study). -/
def scaledSizeString (n : Nat) : String :=
  let i := sizeExponent n
  let whole := n / 1024 ^ i
  let frac := n % 1024 ^ i * 100 / 1024 ^ i
  (if frac = 0 then toString whole
   else toString whole ++ "." ++ (if frac < 10 then "0" else "") ++ toString frac)
    ++ " " ++ sizesUnits.getD i "undefined"

/-- formatFileSize from the TreeList component (src/unnamed/part_003):
if (not bytes) return two quotes; if (bytes === 0) return 0 Bytes; else the
scaled string. -/
def formatFileSizeTreeList (bytes : Option Nat) : String :=
  if bytes = none ∨ bytes = some 0 then ""
  else if bytes = some 0 then "0 Bytes"
  else scaledSizeString (bytes.getD 0)

/-- formatFileSize from the TreeDiagram component (src/unnamed/part_003),
textually identical to the TreeList copy. -/
def formatFileSizeTreeDiagram (bytes : Option Nat) : String :=
  if bytes = none ∨ bytes = some 0 then ""
  else if bytes = some 0 then "0 Bytes"
  else scaledSizeString (bytes.getD 0)

/-- formatFileSize from FileDetailsPanel (AIProposalView.tsx): identical
except the falsy guard returns Unknown size. -/
def formatFileSizeFileDetails (bytes : Option Nat) : String :=
  if bytes = none ∨ bytes = some 0 then "Unknown size"
  else if bytes = some 0 then "0 Bytes"
  else scaledSizeString (bytes.getD 0)

/-- Which return statement of formatFileSize is taken. -/
inductive FFSBranch where
  | falsyGuard
  | zeroBytes
  | scaled
deriving DecidableEq, Repr

/-- The branch taken by formatFileSize, mirroring its guards exactly. -/
def formatFileSizeBranch (bytes : Option Nat) : FFSBranch :=
  if bytes = none ∨ bytes = some 0 then .falsyGuard
  else if bytes = some 0 then .zeroBytes
  else .scaled

/-! ## transformToD3Tree (TreeDiagram component, src/unnamed/part_003) -/

/-- The TreeNode interface of TreeList.tsx and TreeDiagram.tsx.  The
children field is checked for null before use in transformToD3Tree, hence
Option. -/
inductive TreeNodeData where
  | node (id : String) (name : String) (type : String) (mime_type : Option String)
      (size : Option Nat) (created_time modified_time : Option String)
      (parents : List String) (web_view_link : String)
      (children : Option (List TreeNodeData)) (level : Nat)

/-- The attributes object built by transformToD3Tree. -/
structure D3Attributes where
  id : String
  type : String
  mime_type : Option String
  size : Option Nat
  level : Nat
deriving DecidableEq, Repr

/-- The react-d3-tree node shape produced by transformToD3Tree. -/
inductive D3TreeNode where
  | node (name : String) (attributes : D3Attributes) (children : List D3TreeNode)

mutual
/-- transformToD3Tree from TreeDiagram (src/unnamed/part_003): name, an
attributes record of id, type, mime_type, size, level, and children mapped
recursively (empty list when node.children is null). -/
def transformToD3Tree : TreeNodeData → D3TreeNode
  | .node id nm ty mt sz _ _ _ _ ch lvl =>
    .node nm ⟨id, ty, mt, sz, lvl⟩
      (match ch with
       | some cs => transformToD3TreeList cs
       | none => [])

/-- Recursive mapping of a children list by transformToD3Tree. -/
def transformToD3TreeList : List TreeNodeData → List D3TreeNode
  | [] => []
  | c :: cs => transformToD3Tree c :: transformToD3TreeList cs
end

def TreeNodeData.name : TreeNodeData → String
  | .node _ nm _ _ _ _ _ _ _ _ _ => nm

def TreeNodeData.nodeId : TreeNodeData → String
  | .node id _ _ _ _ _ _ _ _ _ _ => id

def TreeNodeData.nodeType : TreeNodeData → String
  | .node _ _ ty _ _ _ _ _ _ _ _ => ty

def TreeNodeData.mimeType : TreeNodeData → Option String
  | .node _ _ _ mt _ _ _ _ _ _ _ => mt

def TreeNodeData.size : TreeNodeData → Option Nat
  | .node _ _ _ _ sz _ _ _ _ _ _ => sz

def TreeNodeData.level : TreeNodeData → Nat
  | .node _ _ _ _ _ _ _ _ _ _ lvl => lvl

def TreeNodeData.children : TreeNodeData → Option (List TreeNodeData)
  | .node _ _ _ _ _ _ _ _ _ ch _ => ch

def D3TreeNode.name : D3TreeNode → String
  | .node nm _ _ => nm

def D3TreeNode.attributes : D3TreeNode → D3Attributes
  | .node _ a _ => a

def D3TreeNode.children : D3TreeNode → List D3TreeNode
  | .node _ _ ch => ch

mutual
/-- Total node count of an input tree. -/
def TreeNodeData.count : TreeNodeData → Nat
  | .node _ _ _ _ _ _ _ _ _ ch _ =>
    1 + (match ch with
         | some cs => TreeNodeData.countList cs
         | none => 0)

def TreeNodeData.countList : List TreeNodeData → Nat
  | [] => 0
  | c :: cs => TreeNodeData.count c + TreeNodeData.countList cs
end

mutual
/-- Total node count of an output tree. -/
def D3TreeNode.count : D3TreeNode → Nat
  | .node _ _ ch => 1 + D3TreeNode.countList ch

def D3TreeNode.countList : List D3TreeNode → Nat
  | [] => 0
  | c :: cs => D3TreeNode.count c + D3TreeNode.countList cs
end

/-! ## Next.js proxy routes (apps/web/app/api) -/

/-- What the backend fetch yields inside a proxy route: an HTTP response with
a status and a JSON body (none when response.json() would throw), or a thrown
fetch error. -/
inductive FetchOutcome where
  | response (status : Nat) (jsonBody : Option String)
  | thrown
deriving DecidableEq, Repr

/-- The ok flag of a fetch Response: status in the inclusive range 200-299. -/
def responseOk (status : Nat) : Bool := 200 ≤ status && status < 300

/-- Body of a proxy route response: forwarded backend data, or the literal
error object built by NextResponse.json. -/
inductive RouteBody where
  | payload (data : String)
  | errorObj (msg : String)
deriving DecidableEq, Repr

/-- A proxy route response: HTTP status plus body. -/
structure RouteResponse where
  status : Nat
  body : RouteBody
deriving DecidableEq, Repr

/-- GET of apps/web/app/api/ai/analysis/[analysisId]/route.ts: forward to the
backend; on a non-ok status reply with that status and the fixed error
object; on success forward the JSON data with status 200; any throw inside
the try yields 500 with the internal-error object. -/
def aiAnalysisGET (f : FetchOutcome) : RouteResponse :=
  match f with
  | .thrown => ⟨500, .errorObj "Internal server error"⟩
  | .response st body =>
    if responseOk st then
      match body with
      | some d => ⟨200, .payload d⟩
      | none => ⟨500, .errorObj "Internal server error"⟩
    else ⟨st, .errorObj "Backend request failed"⟩

/-- POST of the store-token proxy route (src/unnamed/part_000 companion
file), same handler shape as the AI analysis route. -/
def storeTokenPOST (f : FetchOutcome) : RouteResponse :=
  match f with
  | .thrown => ⟨500, .errorObj "Internal server error"⟩
  | .response st body =>
    if responseOk st then
      match body with
      | some d => ⟨200, .payload d⟩
      | none => ⟨500, .errorObj "Internal server error"⟩
    else ⟨st, .errorObj "Backend request failed"⟩

/-- GET of apps/web/app/api/drive/files/route.ts, same handler shape. -/
def driveFilesGET (f : FetchOutcome) : RouteResponse :=
  match f with
  | .thrown => ⟨500, .errorObj "Internal server error"⟩
  | .response st body =>
    if responseOk st then
      match body with
      | some d => ⟨200, .payload d⟩
      | none => ⟨500, .errorObj "Internal server error"⟩
    else ⟨st, .errorObj "Backend request failed"⟩

/-! ## Helper lemmas -/

lemma lookupKey_cons {β : Type} (k k₂ : String) (v : β) (l : List (String × β)) :
    lookupKey k ((k₂, v) :: l) = if k = k₂ then some v else lookupKey k l := rfl

lemma lookupParents_setParents (d : DriveState) (f g : String) (ps : List String) :
    lookupParents (setParents d f ps) g = if g = f then ps else lookupParents d g := by
  unfold lookupParents setParents
  simp only [lookupKey_cons]
  split <;> simp

lemma resolveFolder_fileParents (d : DriveState) (cache : List (String × String))
    (nm : String) : (resolveFolder d cache nm).drive.fileParents = d.fileParents := by
  unfold resolveFolder
  cases lookupKey nm cache with
  | some fid => rfl
  | none =>
    cases findFolder d nm with
    | some fid => rfl
    | none => rfl

lemma lookupParents_resolveFolder (d : DriveState) (cache : List (String × String))
    (nm f : String) :
    lookupParents (resolveFolder d cache nm).drive f = lookupParents d f := by
  unfold lookupParents
  rw [resolveFolder_fileParents]

lemma applyMoves_nil (fails : Nat → Bool) (i : Nat) (d : DriveState)
    (cache : List (String × String)) :
    applyMoves fails [] i d cache = ⟨d, [], [], true, cache⟩ := rfl

lemma applyMoves_cons_fail (fails : Nat → Bool) (m : MoveIntent) (ms : List MoveIntent)
    (i : Nat) (d : DriveState) (cache : List (String × String)) (h : fails i = true) :
    applyMoves fails (m :: ms) i d cache =
      ⟨(resolveFolder d cache m.proposed_folder).drive, [],
       (resolveFolder d cache m.proposed_folder).events ++
         [GatewayCall.moveFile m.file_id
           (lookupParents (resolveFolder d cache m.proposed_folder).drive m.file_id)
           [(resolveFolder d cache m.proposed_folder).fid]],
       false, (resolveFolder d cache m.proposed_folder).cache⟩ := by
  simp [applyMoves, h]

lemma applyMoves_cons_ok (fails : Nat → Bool) (m : MoveIntent) (ms : List MoveIntent)
    (i : Nat) (d : DriveState) (cache : List (String × String)) (h : fails i = false) :
    applyMoves fails (m :: ms) i d cache =
      ⟨(applyMoves fails ms (i + 1)
          (setParents (resolveFolder d cache m.proposed_folder).drive m.file_id
            [(resolveFolder d cache m.proposed_folder).fid])
          (resolveFolder d cache m.proposed_folder).cache).drive,
       ⟨m.file_id, lookupParents (resolveFolder d cache m.proposed_folder).drive m.file_id,
         (resolveFolder d cache m.proposed_folder).fid⟩ ::
         (applyMoves fails ms (i + 1)
            (setParents (resolveFolder d cache m.proposed_folder).drive m.file_id
              [(resolveFolder d cache m.proposed_folder).fid])
            (resolveFolder d cache m.proposed_folder).cache).records,
       (resolveFolder d cache m.proposed_folder).events ++
         GatewayCall.moveFile m.file_id
           (lookupParents (resolveFolder d cache m.proposed_folder).drive m.file_id)
           [(resolveFolder d cache m.proposed_folder).fid] ::
         (applyMoves fails ms (i + 1)
            (setParents (resolveFolder d cache m.proposed_folder).drive m.file_id
              [(resolveFolder d cache m.proposed_folder).fid])
            (resolveFolder d cache m.proposed_folder).cache).trace,
       (applyMoves fails ms (i + 1)
          (setParents (resolveFolder d cache m.proposed_folder).drive m.file_id
            [(resolveFolder d cache m.proposed_folder).fid])
          (resolveFolder d cache m.proposed_folder).cache).ok,
       (applyMoves fails ms (i + 1)
          (setParents (resolveFolder d cache m.proposed_folder).drive m.file_id
            [(resolveFolder d cache m.proposed_folder).fid])
          (resolveFolder d cache m.proposed_folder).cache).cache⟩ := by
  simp [applyMoves, h]

lemma fails_false_of_applyMoves_ok (fails : Nat → Bool) (m : MoveIntent)
    (ms : List MoveIntent) (i : Nat) (d : DriveState) (cache : List (String × String))
    (h : (applyMoves fails (m :: ms) i d cache).ok = true) : fails i = false := by
  by_contra hf
  rw [Bool.not_eq_false] at hf
  rw [applyMoves_cons_fail fails m ms i d cache hf] at h
  simp at h

lemma undoMoves_nil (fails : Nat → Bool) (i : Nat) (d : DriveState) :
    undoMoves fails [] i d = ⟨d, [], 0, true⟩ := rfl

lemma undoMoves_noFail_cons (r : MoveRecord) (rs : List MoveRecord) (i : Nat)
    (d : DriveState) :
    undoMoves noFail (r :: rs) i d =
      ⟨(undoMoves noFail rs (i + 1) (setParents d r.file_id r.previous_parents)).drive,
       GatewayCall.moveFile r.file_id [r.new_parent] r.previous_parents ::
         (undoMoves noFail rs (i + 1) (setParents d r.file_id r.previous_parents)).trace,
       (undoMoves noFail rs (i + 1) (setParents d r.file_id r.previous_parents)).completed + 1,
       (undoMoves noFail rs (i + 1) (setParents d r.file_id r.previous_parents)).ok⟩ := by
  simp [undoMoves, noFail]

lemma undoMoves_noFail_ok (rs : List MoveRecord) (i : Nat) (d : DriveState) :
    (undoMoves noFail rs i d).ok = true := by
  induction rs generalizing i d with
  | nil => rfl
  | cons r rs ih => rw [undoMoves_noFail_cons]; exact ih _ _

lemma undoMoves_noFail_trace (rs : List MoveRecord) (i : Nat) (d : DriveState) :
    (undoMoves noFail rs i d).trace =
      rs.map (fun r => GatewayCall.moveFile r.file_id [r.new_parent] r.previous_parents) := by
  induction rs generalizing i d with
  | nil => rfl
  | cons r rs ih => rw [undoMoves_noFail_cons]; simp [ih]

lemma undoMoves_noFail_append_drive (l₁ l₂ : List MoveRecord) (i : Nat) (d : DriveState) :
    (undoMoves noFail (l₁ ++ l₂) i d).drive =
      (undoMoves noFail l₂ (i + l₁.length) (undoMoves noFail l₁ i d).drive).drive := by
  induction l₁ generalizing i d with
  | nil => simp [undoMoves_nil]
  | cons r rs ih =>
    rw [List.cons_append, undoMoves_noFail_cons, undoMoves_noFail_cons, ih]
    have h : i + 1 + rs.length = i + (rs.length + 1) := by omega
    rw [h]
    rfl

/-- Core round-trip lemma: after a fully successful apply run, replaying the
records in reverse with swapped direction restores each file's parent set. -/
lemma undo_applyMoves_parents (fails : Nat → Bool) (ms : List MoveIntent) (i : Nat)
    (d : DriveState) (cache : List (String × String))
    (hok : (applyMoves fails ms i d cache).ok = true) (j : Nat) (f : String) :
    lookupParents
      (undoMoves noFail (applyMoves fails ms i d cache).records.reverse j
        (applyMoves fails ms i d cache).drive).drive f = lookupParents d f := by
  induction ms generalizing i d cache j with
  | nil => rw [applyMoves_nil]; rfl
  | cons m ms ih =>
    have hfi : fails i = false := fails_false_of_applyMoves_ok fails m ms i d cache hok
    rw [applyMoves_cons_ok fails m ms i d cache hfi] at hok ⊢
    simp only at hok ⊢
    rw [List.reverse_cons, undoMoves_noFail_append_drive]
    rw [undoMoves_noFail_cons, undoMoves_nil]
    simp only
    rw [lookupParents_setParents]
    by_cases hf : f = m.file_id
    · rw [if_pos hf, hf, lookupParents_resolveFolder]
    · rw [if_neg hf]
      rw [ih _ _ _ hok]
      rw [lookupParents_setParents, if_neg hf, lookupParents_resolveFolder]

lemma applyProposal_error_none (s : SystemState) (pid actor : String)
    (fails : Nat → Bool) (h : lookupKey pid s.proposals = none) :
    applyProposal s pid actor fails = .error .invalidState := by
  unfold applyProposal
  rw [h]

lemma applyProposal_error_owner (s : SystemState) (pid actor : String)
    (fails : Nat → Bool) (p : Proposal) (h : lookupKey pid s.proposals = some p)
    (how : p.owner ≠ actor) :
    applyProposal s pid actor fails = .error .invalidState := by
  unfold applyProposal
  rw [h]
  dsimp only
  rw [if_pos how]

lemma applyProposal_error_status (s : SystemState) (pid actor : String)
    (fails : Nat → Bool) (p : Proposal) (h : lookupKey pid s.proposals = some p)
    (hst : p.status ≠ .draft) :
    applyProposal s pid actor fails = .error .invalidState := by
  unfold applyProposal
  rw [h]
  dsimp only
  by_cases how : p.owner ≠ actor
  · rw [if_pos how]
  · rw [if_neg how, if_pos hst]

/-- Successful apply calls are exactly characterized: the proposal exists, is
owned by the actor, is a draft, and the result is the canonical update. -/
lemma applyProposal_ok_elim (s : SystemState) (pid actor : String)
    (fails : Nat → Bool) (r : ApplyResult)
    (h : applyProposal s pid actor fails = .ok r) :
    ∃ p, lookupKey pid s.proposals = some p ∧ p.owner = actor ∧
      p.status = .draft ∧
      r = ⟨{ proposals := (pid, { p with status := .applied }) :: s.proposals,
             logs := ("log-" ++ toString s.nextLogId,
               ⟨p.owner, pid, (applyMoves fails p.moves 0 s.drive []).records, false⟩)
               :: s.logs,
             drive := (applyMoves fails p.moves 0 s.drive []).drive,
             nextLogId := s.nextLogId + 1 },
           "log-" ++ toString s.nextLogId,
           ⟨p.owner, pid, (applyMoves fails p.moves 0 s.drive []).records, false⟩,
           (applyMoves fails p.moves 0 s.drive []).trace,
           if (applyMoves fails p.moves 0 s.drive []).ok then none
           else some ((applyMoves fails p.moves 0 s.drive []).records.length,
             p.moves.length - (applyMoves fails p.moves 0 s.drive []).records.length)⟩ := by
  unfold applyProposal at h
  cases hl : lookupKey pid s.proposals with
  | none => rw [hl] at h; simp at h
  | some p =>
    rw [hl] at h
    dsimp only at h
    by_cases how : p.owner ≠ actor
    · rw [if_pos how] at h; simp at h
    · rw [if_neg how] at h
      by_cases hst : p.status ≠ .draft
      · rw [if_pos hst] at h; simp at h
      · rw [if_neg hst] at h
        simp only [Except.ok.injEq] at h
        rw [Ne, not_not] at how hst
        exact ⟨p, rfl, how, hst, h.symm⟩

lemma undoEntry_error_none (s : SystemState) (logId actor : String)
    (fails : Nat → Bool) (h : lookupKey logId s.logs = none) :
    undoEntry s logId actor fails = .error .invalidState := by
  unfold undoEntry
  rw [h]

lemma undoEntry_error_owner (s : SystemState) (logId actor : String)
    (fails : Nat → Bool) (e : ChangeLogEntry) (h : lookupKey logId s.logs = some e)
    (how : e.owner ≠ actor) :
    undoEntry s logId actor fails = .error .invalidState := by
  unfold undoEntry
  rw [h]
  dsimp only
  rw [if_pos how]

lemma undoEntry_error_reverted (s : SystemState) (logId actor : String)
    (fails : Nat → Bool) (e : ChangeLogEntry) (h : lookupKey logId s.logs = some e)
    (hrev : e.reverted = true) :
    undoEntry s logId actor fails = .error .invalidState := by
  unfold undoEntry
  rw [h]
  dsimp only
  by_cases how : e.owner ≠ actor
  · rw [if_pos how]
  · rw [if_neg how, hrev, if_pos rfl]

lemma step_apply_error (s : SystemState) (pid actor : String) (fails : Nat → Bool)
    (h : applyProposal s pid actor fails = .error .invalidState) :
    step s (.applyP pid actor fails) = s := by
  unfold step
  dsimp only
  rw [h]

lemma step_undo_error (s : SystemState) (logId actor : String) (fails : Nat → Bool)
    (h : undoEntry s logId actor fails = .error .invalidState) :
    step s (.undoL logId actor fails) = s := by
  unfold step
  dsimp only
  rw [h]

/-- Fully successful undo calls are exactly characterized: the entry exists,
is owned by the actor, is not yet reverted, and the result state carries the
replayed drive and the entry marked reverted. -/
lemma undoEntry_ok_full_elim (s : SystemState) (logId actor : String)
    (fails : Nat → Bool) (u : UndoResult)
    (h : undoEntry s logId actor fails = .ok u) (hfull : u.failure = none) :
    ∃ e, lookupKey logId s.logs = some e ∧ e.owner = actor ∧ e.reverted = false ∧
      u.state.logs = (logId, { e with reverted := true }) :: s.logs ∧
      u.state.drive = (undoMoves fails e.changes.reverse 0 s.drive).drive ∧
      u.trace = (undoMoves fails e.changes.reverse 0 s.drive).trace := by
  unfold undoEntry at h
  cases hl : lookupKey logId s.logs with
  | none => rw [hl] at h; simp at h
  | some e =>
    rw [hl] at h
    dsimp only at h
    by_cases how : e.owner ≠ actor
    · rw [if_pos how] at h; simp at h
    · rw [if_neg how] at h
      by_cases hrev : e.reverted = true
      · rw [if_pos hrev] at h; simp at h
      · rw [if_neg hrev] at h
        rw [Bool.not_eq_true] at hrev
        rw [Ne, not_not] at how
        by_cases hok : (undoMoves fails e.changes.reverse 0 s.drive).ok = true
        · rw [if_pos hok] at h
          simp only [Except.ok.injEq] at h
          subst h
          exact ⟨e, rfl, how, hrev, rfl, rfl, rfl⟩
        · rw [if_neg hok] at h
          simp only [Except.ok.injEq] at h
          subst h
          simp at hfull

/-- Successful undo calls are exactly characterized up to the full/partial
distinction: the entry exists, is owned by the actor, is not yet reverted;
on full success the entry is marked reverted and the proposal set to
reverted, on partial failure the stores are untouched. -/
lemma undoEntry_ok_cases (s : SystemState) (logId actor : String)
    (fails : Nat → Bool) (u : UndoResult) (h : undoEntry s logId actor fails = .ok u) :
    ∃ e, lookupKey logId s.logs = some e ∧ e.owner = actor ∧ e.reverted = false ∧
      ((u.state.logs = (logId, { e with reverted := true }) :: s.logs ∧
        u.state.proposals =
          (match lookupKey e.proposal_id s.proposals with
           | some p => (e.proposal_id, { p with status := .reverted }) :: s.proposals
           | none => s.proposals)) ∨
       (u.state.logs = s.logs ∧ u.state.proposals = s.proposals)) := by
  unfold undoEntry at h
  cases hl : lookupKey logId s.logs with
  | none => rw [hl] at h; simp at h
  | some e =>
    rw [hl] at h
    dsimp only at h
    by_cases how : e.owner ≠ actor
    · rw [if_pos how] at h; simp at h
    · rw [if_neg how] at h
      by_cases hrev : e.reverted = true
      · rw [if_pos hrev] at h; simp at h
      · rw [if_neg hrev] at h
        rw [Ne, not_not] at how
        rw [Bool.not_eq_true] at hrev
        by_cases hok : (undoMoves fails e.changes.reverse 0 s.drive).ok = true
        · rw [if_pos hok] at h
          simp only [Except.ok.injEq] at h
          subst h
          exact ⟨e, rfl, how, hrev, Or.inl ⟨rfl, rfl⟩⟩
        · rw [if_neg hok] at h
          simp only [Except.ok.injEq] at h
          subst h
          exact ⟨e, rfl, how, hrev, Or.inr ⟨rfl, rfl⟩⟩

lemma step_apply_ok (s : SystemState) (pid actor : String) (fails : Nat → Bool)
    (r : ApplyResult) (h : applyProposal s pid actor fails = .ok r) :
    step s (.applyP pid actor fails) = r.state := by
  unfold step
  dsimp only
  rw [h]

lemma step_undo_ok (s : SystemState) (logId actor : String) (fails : Nat → Bool)
    (u : UndoResult) (h : undoEntry s logId actor fails = .ok u) :
    step s (.undoL logId actor fails) = u.state := by
  unfold step
  dsimp only
  rw [h]

lemma step_new_some (s : SystemState) (pid owner : String) (moves : List MoveIntent)
    (h : (lookupKey pid s.proposals).isSome) :
    step s (.newProposal pid owner moves) = s := by
  unfold step
  dsimp only
  rw [if_pos h]

lemma step_new_none (s : SystemState) (pid owner : String) (moves : List MoveIntent)
    (h : lookupKey pid s.proposals = none) :
    step s (.newProposal pid owner moves) =
      { s with proposals := (pid, ⟨owner, moves, .draft⟩) :: s.proposals } := by
  unfold step
  dsimp only
  rw [if_neg (by rw [h]; simp)]

lemma statusOf_def (s : SystemState) (pid : String) :
    statusOf s pid = (lookupKey pid s.proposals).map Proposal.status := rfl

lemma statusOf_applied_elim (s : SystemState) (q : String)
    (h : statusOf s q = some .applied) :
    ∃ p, lookupKey q s.proposals = some p ∧ p.status = .applied := by
  rw [statusOf_def] at h
  cases hl : lookupKey q s.proposals with
  | none => rw [hl] at h; simp at h
  | some p =>
    rw [hl] at h
    simp only [Option.map_some', Option.some.injEq] at h
    exact ⟨p, rfl, h⟩

/-- Invariant of reachable states: every not-yet-reverted change log entry
(as found by lookup) references a proposal that is currently in applied
status, and is the unique not-yet-reverted entry for that proposal. -/
def EntriesOK (s : SystemState) : Prop :=
  ∀ lid e, lookupKey lid s.logs = some e → e.reverted = false →
    statusOf s e.proposal_id = some .applied ∧
    ∀ lid₂ e₂, lookupKey lid₂ s.logs = some e₂ → e₂.reverted = false →
      e₂.proposal_id = e.proposal_id → lid₂ = lid

lemma entriesOK_preserved (s : SystemState) (op : Op) (hs : EntriesOK s) :
    EntriesOK (step s op) := by
  cases op with
  | newProposal pid owner moves =>
    by_cases hl : (lookupKey pid s.proposals).isSome
    · rw [step_new_some s pid owner moves hl]; exact hs
    · rw [Option.not_isSome_iff_eq_none] at hl
      rw [step_new_none s pid owner moves hl]
      intro lid e he hrev
      obtain ⟨hstat, huniq⟩ := hs lid e he hrev
      constructor
      · rw [statusOf_def]
        dsimp only
        rw [lookupKey_cons]
        split
        · rename_i hq
          exfalso
          obtain ⟨p, hp, _⟩ := statusOf_applied_elim s e.proposal_id hstat
          rw [hq, hl] at hp
          exact Option.noConfusion hp
        · exact hstat
      · exact huniq
  | applyP pid actor fails =>
    cases happ : applyProposal s pid actor fails with
    | error err =>
      unfold step
      dsimp only
      rw [happ]
      exact hs
    | ok r =>
      rw [step_apply_ok s pid actor fails r happ]
      obtain ⟨p, hp, _, hdraft, hr⟩ := applyProposal_ok_elim s pid actor fails r happ
      rw [hr]
      dsimp only
      intro lid e he hrev
      rw [lookupKey_cons] at he
      by_cases hlid : lid = "log-" ++ toString s.nextLogId
      · rw [if_pos hlid] at he
        injection he with he
        subst he
        dsimp only at hrev ⊢
        constructor
        · rw [statusOf_def]
          dsimp only
          rw [lookupKey_cons, if_pos rfl]
          rfl
        · intro lid₂ e₂ he₂ hrev₂ hpid₂
          rw [lookupKey_cons] at he₂
          by_cases hlid₂ : lid₂ = "log-" ++ toString s.nextLogId
          · rw [hlid₂, hlid]
          · rw [if_neg hlid₂] at he₂
            obtain ⟨hstat₂, _⟩ := hs lid₂ e₂ he₂ hrev₂
            rw [hpid₂] at hstat₂
            rw [statusOf_def, hp] at hstat₂
            simp only [Option.map_some', Option.some.injEq] at hstat₂
            rw [hdraft] at hstat₂
            exact absurd hstat₂ (by intro hc; exact ProposalStatus.noConfusion hc)
      · rw [if_neg hlid] at he
        obtain ⟨hstat, huniq⟩ := hs lid e he hrev
        have hne : e.proposal_id ≠ pid := by
          intro hc
          rw [hc, statusOf_def, hp] at hstat
          simp only [Option.map_some', Option.some.injEq] at hstat
          rw [hdraft] at hstat
          exact ProposalStatus.noConfusion hstat
        constructor
        · rw [statusOf_def]
          dsimp only
          rw [lookupKey_cons, if_neg hne]
          exact hstat
        · intro lid₂ e₂ he₂ hrev₂ hpid₂
          rw [lookupKey_cons] at he₂
          by_cases hlid₂ : lid₂ = "log-" ++ toString s.nextLogId
          · rw [if_pos hlid₂] at he₂
            injection he₂ with he₂
            subst he₂
            dsimp only at hpid₂
            exact absurd hpid₂.symm hne
          · rw [if_neg hlid₂] at he₂
            exact huniq lid₂ e₂ he₂ hrev₂ hpid₂
  | undoL logId actor fails =>
    cases hund : undoEntry s logId actor fails with
    | error err =>
      unfold step
      dsimp only
      rw [hund]
      exact hs
    | ok u =>
      rw [step_undo_ok s logId actor fails u hund]
      obtain ⟨e₀, he₀, _, hrev₀, hcase⟩ := undoEntry_ok_cases s logId actor fails u hund
      obtain ⟨hstat₀, huniq₀⟩ := hs logId e₀ he₀ hrev₀
      cases hcase with
      | inr hsame =>
        obtain ⟨hlogs, hprops⟩ := hsame
        intro lid e he hrev
        rw [hlogs] at he
        obtain ⟨hstat, huniq⟩ := hs lid e he hrev
        refine ⟨?_, ?_⟩
        · rw [statusOf_def, hprops]
          exact hstat
        · intro lid₂ e₂ he₂ hrev₂ hpid₂
          rw [hlogs] at he₂
          exact huniq lid₂ e₂ he₂ hrev₂ hpid₂
      | inl hnew =>
        obtain ⟨hlogs, hprops⟩ := hnew
        obtain ⟨p, hp, _⟩ := statusOf_applied_elim s e₀.proposal_id hstat₀
        rw [hp] at hprops
        intro lid e he hrev
        rw [hlogs, lookupKey_cons] at he
        by_cases hlid : lid = logId
        · rw [if_pos hlid] at he
          injection he with he
          subst he
          simp at hrev
        · rw [if_neg hlid] at he
          obtain ⟨hstat, huniq⟩ := hs lid e he hrev
          have hne : e.proposal_id ≠ e₀.proposal_id := by
            intro hc
            exact hlid (huniq₀ lid e he hrev hc)
          refine ⟨?_, ?_⟩
          · rw [statusOf_def, hprops]
            rw [lookupKey_cons, if_neg hne]
            exact hstat
          · intro lid₂ e₂ he₂ hrev₂ hpid₂
            rw [hlogs, lookupKey_cons] at he₂
            by_cases hlid₂ : lid₂ = logId
            · rw [if_pos hlid₂] at he₂
              injection he₂ with he₂
              subst he₂
              simp at hrev₂
            · rw [if_neg hlid₂] at he₂
              exact huniq lid₂ e₂ he₂ hrev₂ hpid₂

lemma reachable_entriesOK (s : SystemState) (h : Reachable s) : EntriesOK s := by
  induction h with
  | init d =>
    intro lid e he
    exact absurd he (by simp [lookupKey])
  | step s op _ ih => exact entriesOK_preserved s op ih

/-- The forward transitions of the proposal status state machine: unchanged,
created as draft, draft to applied via apply, applied to reverted via
undo. -/
def statusTransOK (a b : Option ProposalStatus) : Prop :=
  a = b ∨ (a = none ∧ b = some .draft) ∨ (a = some .draft ∧ b = some .applied) ∨
    (a = some .applied ∧ b = some .reverted)

/-- An apply run only modifies the parent sets of the files it actually
recorded as moved. -/
lemma applyMoves_untouched (fails : Nat → Bool) (ms : List MoveIntent) (i : Nat)
    (d : DriveState) (cache : List (String × String)) (f : String)
    (hf : f ∉ (applyMoves fails ms i d cache).records.map MoveRecord.file_id) :
    lookupParents (applyMoves fails ms i d cache).drive f = lookupParents d f := by
  induction ms generalizing i d cache with
  | nil => rw [applyMoves_nil]
  | cons m ms ih =>
    by_cases hfl : fails i = true
    · rw [applyMoves_cons_fail fails m ms i d cache hfl]
      exact lookupParents_resolveFolder d cache m.proposed_folder f
    · rw [Bool.not_eq_true] at hfl
      rw [applyMoves_cons_ok fails m ms i d cache hfl] at hf ⊢
      dsimp only at hf ⊢
      rw [List.map_cons, List.mem_cons] at hf
      push_neg at hf
      rw [ih _ _ _ hf.2]
      rw [lookupParents_setParents, if_neg hf.1, lookupParents_resolveFolder]

/-- In an apply run that stops at the first failing move, the recorded moves
are exactly the completed prefix, in order. -/
lemma applyMoves_first_fail (fails : Nat → Bool) (ms : List MoveIntent) (i j : Nat)
    (d : DriveState) (cache : List (String × String)) (hj : j < ms.length)
    (hfj : fails (i + j) = true) (hlt : ∀ k, k < j → fails (i + k) = false) :
    (applyMoves fails ms i d cache).records.map MoveRecord.file_id =
      ((ms.take j).map MoveIntent.file_id) ∧
    (applyMoves fails ms i d cache).ok = false := by
  induction ms generalizing i j d cache with
  | nil => exact absurd hj (by simp)
  | cons m ms ih =>
    cases j with
    | zero =>
      rw [Nat.add_zero] at hfj
      rw [applyMoves_cons_fail fails m ms i d cache hfj]
      exact ⟨rfl, rfl⟩
    | succ jj =>
      have hf0 : fails i = false := by
        have := hlt 0 (Nat.succ_pos jj)
        rwa [Nat.add_zero] at this
      rw [applyMoves_cons_ok fails m ms i d cache hf0]
      dsimp only
      have hfj₂ : fails (i + 1 + jj) = true := by
        rw [show i + 1 + jj = i + (jj + 1) by omega]
        exact hfj
      have hlt₂ : ∀ k, k < jj → fails (i + 1 + k) = false := by
        intro k hk
        rw [show i + 1 + k = i + (k + 1) by omega]
        exact hlt (k + 1) (by omega)
      have hj₂ : jj < ms.length := by
        simpa using hj
      obtain ⟨hmap, hok⟩ := ih (i + 1) jj _ _ hj₂ hfj₂ hlt₂
      refine ⟨?_, hok⟩
      rw [List.take_cons (Nat.succ_pos jj), List.map_cons, List.map_cons]
      simp [hmap]

/-- Completed moves are not rolled back: when the recorded file ids are
pairwise distinct, each recorded file still sits exactly under its recorded
new parent at the end of the run. -/
lemma applyMoves_no_rollback (fails : Nat → Bool) (ms : List MoveIntent) (i : Nat)
    (d : DriveState) (cache : List (String × String))
    (hnodup : ((applyMoves fails ms i d cache).records.map MoveRecord.file_id).Nodup) :
    ∀ rec ∈ (applyMoves fails ms i d cache).records,
      lookupParents (applyMoves fails ms i d cache).drive rec.file_id =
        [rec.new_parent] := by
  induction ms generalizing i d cache with
  | nil =>
    rw [applyMoves_nil]
    intro rec hrec
    exact absurd hrec (by simp)
  | cons m ms ih =>
    by_cases hfl : fails i = true
    · rw [applyMoves_cons_fail fails m ms i d cache hfl]
      intro rec hrec
      exact absurd hrec (by simp)
    · rw [Bool.not_eq_true] at hfl
      rw [applyMoves_cons_ok fails m ms i d cache hfl] at hnodup ⊢
      dsimp only at hnodup ⊢
      rw [List.map_cons, List.nodup_cons] at hnodup
      intro rec hrec
      rw [List.mem_cons] at hrec
      cases hrec with
      | inl h0 =>
        subst h0
        dsimp only
        rw [applyMoves_untouched fails ms (i + 1) _ _ m.file_id hnodup.1]
        rw [lookupParents_setParents, if_pos rfl]
      | inr hrest =>
        exact ih _ _ _ hnodup.2 rec hrest

lemma resolveFolder_hit (d : DriveState) (cache : List (String × String))
    (nm fid : String) (h : lookupKey nm cache = some fid) :
    resolveFolder d cache nm = ⟨fid, d, cache, []⟩ := by
  unfold resolveFolder
  rw [h]

lemma resolveFolder_cache_self (d : DriveState) (cache : List (String × String))
    (nm : String) :
    lookupKey nm (resolveFolder d cache nm).cache =
      some (resolveFolder d cache nm).fid := by
  unfold resolveFolder
  cases h : lookupKey nm cache with
  | some fid => exact h
  | none =>
    cases findFolder d nm with
    | some fid =>
      dsimp only
      rw [lookupKey_cons, if_pos rfl]
    | none =>
      dsimp only
      rw [lookupKey_cons, if_pos rfl]

lemma resolveFolder_cache_other (d : DriveState) (cache : List (String × String))
    (nm nm₂ : String) (h : nm₂ ≠ nm) :
    lookupKey nm (resolveFolder d cache nm₂).cache = lookupKey nm cache := by
  unfold resolveFolder
  cases lookupKey nm₂ cache with
  | some fid => rfl
  | none =>
    cases findFolder d nm₂ with
    | some fid =>
      dsimp only
      rw [lookupKey_cons, if_neg (fun hc => h hc.symm)]
    | none =>
      dsimp only
      rw [lookupKey_cons, if_neg (fun hc => h hc.symm)]

/-- Lookup-preserving extension between caches. -/
def CacheExt (c c₂ : List (String × String)) : Prop :=
  ∀ nm fid, lookupKey nm c = some fid → lookupKey nm c₂ = some fid

lemma resolveFolder_cacheExt (d : DriveState) (cache : List (String × String))
    (nm : String) : CacheExt cache (resolveFolder d cache nm).cache := by
  intro n f hn
  by_cases he : n = nm
  · subst he
    rw [resolveFolder_hit d cache n f hn]
    exact hn
  · rw [resolveFolder_cache_other d cache n nm (fun hc => he hc.symm)]
    exact hn

lemma applyMoves_cacheExt (fails : Nat → Bool) (ms : List MoveIntent) (i : Nat)
    (d : DriveState) (cache : List (String × String)) :
    CacheExt cache (applyMoves fails ms i d cache).cache := by
  induction ms generalizing i d cache with
  | nil =>
    rw [applyMoves_nil]
    exact fun n f h => h
  | cons m ms ih =>
    by_cases hfl : fails i = true
    · rw [applyMoves_cons_fail fails m ms i d cache hfl]
      exact resolveFolder_cacheExt d cache m.proposed_folder
    · rw [Bool.not_eq_true] at hfl
      rw [applyMoves_cons_ok fails m ms i d cache hfl]
      dsimp only
      intro n f h
      exact ih _ _ _ n f (resolveFolder_cacheExt d cache m.proposed_folder n f h)

/-- Whether a gateway call resolves (creates or finds) the given folder
name. -/
def isResolutionFor (nm : String) : GatewayCall → Bool
  | .createFolder n _ => n = nm
  | .resolveExisting n _ => n = nm
  | .moveFile _ _ _ => false

/-- Number of folder-resolution gateway calls for a name in a trace. -/
def resolutionsFor (nm : String) (tr : List GatewayCall) : Nat :=
  (tr.filter (isResolutionFor nm)).length

lemma resolutionsFor_append (nm : String) (l₁ l₂ : List GatewayCall) :
    resolutionsFor nm (l₁ ++ l₂) = resolutionsFor nm l₁ + resolutionsFor nm l₂ := by
  simp [resolutionsFor, List.filter_append]

lemma resolutionsFor_move (nm fid : String) (a b : List String)
    (l : List GatewayCall) :
    resolutionsFor nm (GatewayCall.moveFile fid a b :: l) = resolutionsFor nm l := by
  simp [resolutionsFor, List.filter_cons, isResolutionFor]

lemma resolveFolder_events_self (d : DriveState) (cache : List (String × String))
    (nm : String) (h : lookupKey nm cache = none) :
    resolutionsFor nm (resolveFolder d cache nm).events = 1 := by
  unfold resolveFolder
  rw [h]
  cases findFolder d nm with
  | some fid => simp [resolutionsFor, List.filter_cons, isResolutionFor]
  | none => simp [resolutionsFor, List.filter_cons, isResolutionFor]

lemma resolveFolder_events_other (d : DriveState) (cache : List (String × String))
    (nm nm₂ : String) (h : nm₂ ≠ nm) :
    resolutionsFor nm (resolveFolder d cache nm₂).events = 0 := by
  unfold resolveFolder
  cases lookupKey nm₂ cache with
  | some fid => simp [resolutionsFor]
  | none =>
    cases findFolder d nm₂ with
    | some fid => simp [resolutionsFor, List.filter_cons, isResolutionFor, h]
    | none => simp [resolutionsFor, List.filter_cons, isResolutionFor, h]

/-- Folder resolution is idempotent per run: a fully successful apply run
issues exactly one resolution call (creation or reuse) for each folder name
its intents target, and none for other names. -/
lemma applyMoves_resolutions (fails : Nat → Bool) (ms : List MoveIntent) (i : Nat)
    (d : DriveState) (cache : List (String × String)) (nm : String)
    (hok : (applyMoves fails ms i d cache).ok = true) :
    resolutionsFor nm (applyMoves fails ms i d cache).trace =
      if (lookupKey nm cache).isSome ∨ nm ∉ ms.map MoveIntent.proposed_folder
      then 0 else 1 := by
  induction ms generalizing i d cache with
  | nil =>
    rw [applyMoves_nil]
    simp [resolutionsFor]
  | cons m ms ih =>
    have hfl : fails i = false := fails_false_of_applyMoves_ok fails m ms i d cache hok
    rw [applyMoves_cons_ok fails m ms i d cache hfl] at hok ⊢
    dsimp only at hok ⊢
    rw [resolutionsFor_append, resolutionsFor_move]
    by_cases hpf : m.proposed_folder = nm
    · subst hpf
      cases hc : lookupKey m.proposed_folder cache with
      | some fid =>
        rw [resolveFolder_hit d cache m.proposed_folder fid hc] at hok ⊢
        dsimp only at hok ⊢
        rw [ih _ _ _ hok, hc]
        simp [resolutionsFor]
      | none =>
        rw [resolveFolder_events_self d cache m.proposed_folder hc]
        rw [ih _ _ _ hok]
        rw [resolveFolder_cache_self d cache m.proposed_folder]
        simp [hc]
    · rw [resolveFolder_events_other d cache nm m.proposed_folder hpf]
      rw [ih _ _ _ hok]
      rw [resolveFolder_cache_other d cache nm m.proposed_folder hpf]
      have hmem : (nm ∈ (m :: ms).map MoveIntent.proposed_folder) ↔
          nm ∈ ms.map MoveIntent.proposed_folder := by
        rw [List.map_cons, List.mem_cons]
        constructor
        · intro hx
          cases hx with
          | inl hx => exact absurd hx.symm hpf
          | inr hx => exact hx
        · exact Or.inr
      have hnm : ¬nm = m.proposed_folder := fun hc => hpf hc.symm
      simp [hmem, hnm]

/-- Each recorded move of a fully successful apply run carries, as its new
parent, exactly the id the final cache associates to the intent's proposed
folder name. -/
lemma applyMoves_record_newparent (fails : Nat → Bool) (ms : List MoveIntent)
    (i : Nat) (d : DriveState) (cache : List (String × String))
    (hok : (applyMoves fails ms i d cache).ok = true) (idx : Nat) (m : MoveIntent)
    (hm : ms.get? idx = some m) :
    ∃ rec, (applyMoves fails ms i d cache).records.get? idx = some rec ∧
      lookupKey m.proposed_folder (applyMoves fails ms i d cache).cache =
        some rec.new_parent := by
  induction ms generalizing idx i d cache with
  | nil => exact absurd hm (by simp)
  | cons m₂ ms ih =>
    have hfl : fails i = false := fails_false_of_applyMoves_ok fails m₂ ms i d cache hok
    rw [applyMoves_cons_ok fails m₂ ms i d cache hfl] at hok ⊢
    dsimp only at hok ⊢
    cases idx with
    | zero =>
      rw [List.get?_cons_zero] at hm
      injection hm with hm
      subst hm
      refine ⟨_, List.get?_cons_zero, ?_⟩
      dsimp only
      exact applyMoves_cacheExt fails ms (i + 1) _ _ _ _
        (resolveFolder_cache_self d cache _)
    | succ k =>
      rw [List.get?_cons_succ] at hm
      obtain ⟨rec, hrec, hcache⟩ := ih _ _ _ hok k hm
      exact ⟨rec, by rw [List.get?_cons_succ]; exact hrec, hcache⟩

/-! ## Demo scenario (the example of spec section 8) -/

/-- Drive of the spec's example: fileA and fileB both under parent P1. -/
def demoDrive : DriveState := ⟨[("fileA", ["P1"]), ("fileB", ["P1"])], [], 0⟩

/-- The Receipts proposal of the spec's example. -/
def demoProposal : Proposal :=
  ⟨"alice", [⟨"fileA", "P1", "Receipts"⟩, ⟨"fileB", "P1", "Receipts"⟩],
   ProposalStatus.draft⟩

/-- System state holding the Receipts proposal as a draft. -/
def demoState : SystemState := ⟨[("p1", demoProposal)], [], demoDrive, 0⟩

/-- Placeholder result used only to destructure demo runs. -/
def dfltApplyResult : ApplyResult := ⟨demoState, "", ⟨"", "", [], false⟩, [], none⟩

/-- The concrete result of applying the demo proposal. -/
def demoApplyRes : ApplyResult :=
  (applyProposal demoState "p1" "alice" noFail).toOption.getD dfltApplyResult

/-- Placeholder undo result used only to destructure demo runs. -/
def dfltUndoResult : UndoResult := ⟨demoState, [], none⟩

/-- The concrete result of undoing the demo change log entry. -/
def demoUndoRes : UndoResult :=
  (undoEntry demoApplyRes.state demoApplyRes.logId "alice" noFail).toOption.getD
    dfltUndoResult

/-! ## Claim theorems -/

/-- C1: for every proposal whose apply run completes fully, undoing the
resulting change log entry immediately afterwards restores every moved file
to exactly the parent set it had before apply, and marks the entry
reverted. -/
theorem apply_undo_roundtrip (s : SystemState) (pid actor : String)
    (fails : Nat → Bool) (r : ApplyResult)
    (h1 : applyProposal s pid actor fails = .ok r) (h2 : r.failure = none)
    (u : UndoResult) (h3 : undoEntry r.state r.logId actor noFail = .ok u) :
    (∀ f, lookupParents u.state.drive f = lookupParents s.drive f) ∧
    lookupKey r.logId u.state.logs = some { r.entry with reverted := true } := by
  unfold applyProposal at h1
  cases hl : lookupKey pid s.proposals with
  | none => rw [hl] at h1; simp at h1
  | some p =>
    rw [hl] at h1
    dsimp only at h1
    by_cases how : p.owner ≠ actor
    · rw [if_pos how] at h1; simp at h1
    · rw [if_neg how] at h1
      by_cases hst : p.status ≠ .draft
      · rw [if_pos hst] at h1; simp at h1
      · rw [if_neg hst] at h1
        simp only [Except.ok.injEq] at h1
        subst h1
        dsimp only at h2 h3 ⊢
        have hok : (applyMoves fails p.moves 0 s.drive []).ok = true := by
          by_contra hno
          rw [Bool.not_eq_true] at hno
          rw [hno] at h2
          simp at h2
        unfold undoEntry at h3
        rw [lookupKey_cons, if_pos rfl] at h3
        dsimp only at h3
        rw [if_neg how] at h3
        simp only [Bool.false_eq_true, if_false] at h3
        rw [if_pos (undoMoves_noFail_ok _ _ _)] at h3
        simp only [Except.ok.injEq] at h3
        subst h3
        dsimp only
        constructor
        · intro f
          exact undo_applyMoves_parents fails p.moves 0 s.drive [] hok 0 f
        · rw [lookupKey_cons, if_pos rfl]

/-- C3: apply fails with InvalidStateError and performs no state change when
the proposal is missing, owned by another user, or not in draft status; in
particular a second apply of the same proposal without an intervening undo
fails with InvalidStateError. -/
theorem apply_preconditions (s : SystemState) (pid actor : String)
    (fails : Nat → Bool) :
    (lookupKey pid s.proposals = none →
      applyProposal s pid actor fails = .error .invalidState ∧
      step s (.applyP pid actor fails) = s) ∧
    (∀ p, lookupKey pid s.proposals = some p → p.owner ≠ actor →
      applyProposal s pid actor fails = .error .invalidState ∧
      step s (.applyP pid actor fails) = s) ∧
    (∀ p, lookupKey pid s.proposals = some p → p.status ≠ .draft →
      applyProposal s pid actor fails = .error .invalidState ∧
      step s (.applyP pid actor fails) = s) ∧
    (∀ r, applyProposal s pid actor fails = .ok r →
      ∀ fb : Nat → Bool, applyProposal r.state pid actor fb = .error .invalidState) := by
  refine ⟨?_, ?_, ?_, ?_⟩
  · intro h
    have he := applyProposal_error_none s pid actor fails h
    exact ⟨he, step_apply_error s pid actor fails he⟩
  · intro p h how
    have he := applyProposal_error_owner s pid actor fails p h how
    exact ⟨he, step_apply_error s pid actor fails he⟩
  · intro p h hst
    have he := applyProposal_error_status s pid actor fails p h hst
    exact ⟨he, step_apply_error s pid actor fails he⟩
  · intro r h fb
    obtain ⟨p, _, _, _, hr⟩ := applyProposal_ok_elim s pid actor fails r h
    apply applyProposal_error_status r.state pid actor fb
      { p with status := .applied }
    · rw [hr]
      dsimp only
      rw [lookupKey_cons, if_pos rfl]
    · intro hc
      exact ProposalStatus.noConfusion (congrArg id hc)

/-- Witness for C3: double-applying the demo proposal fails on the second
call with InvalidStateError. -/
theorem apply_preconditions_witness :
    applyProposal demoApplyRes.state "p1" "alice" noFail = .error .invalidState :=
  (apply_preconditions demoState "p1" "alice" noFail).2.2.2 demoApplyRes rfl noFail

/-- C6: a fully successful undo run issues its Drive Gateway moves in exactly
the reverse of application order, each with swapped direction: source the
record's new_parent, destination its previous_parents. -/
theorem undo_reverse_swapped (s : SystemState) (logId actor : String)
    (e : ChangeLogEntry) (u : UndoResult)
    (he : lookupKey logId s.logs = some e)
    (h : undoEntry s logId actor noFail = .ok u) :
    u.trace = e.changes.reverse.map
      (fun rec => GatewayCall.moveFile rec.file_id [rec.new_parent]
        rec.previous_parents) := by
  unfold undoEntry at h
  rw [he] at h
  dsimp only at h
  by_cases how : e.owner ≠ actor
  · rw [if_pos how] at h; simp at h
  · rw [if_neg how] at h
    by_cases hrev : e.reverted = true
    · rw [if_pos hrev] at h; simp at h
    · rw [if_neg hrev] at h
      rw [if_pos (undoMoves_noFail_ok _ _ _)] at h
      simp only [Except.ok.injEq] at h
      subst h
      dsimp only
      rw [undoMoves_noFail_trace]

/-- Witness for C6 on the demo run. -/
theorem undo_reverse_swapped_witness :
    demoUndoRes.trace = demoApplyRes.entry.changes.reverse.map
      (fun rec => GatewayCall.moveFile rec.file_id [rec.new_parent]
        rec.previous_parents) :=
  undo_reverse_swapped demoApplyRes.state demoApplyRes.logId "alice"
    demoApplyRes.entry demoUndoRes rfl rfl

/-- C7: undo fails with InvalidStateError and performs no state change when
the entry is missing, owned by another user, or already reverted; in
particular undoing the same entry twice after a fully successful undo fails
with InvalidStateError on the second call. -/
theorem undo_preconditions (s : SystemState) (logId actor : String)
    (fails : Nat → Bool) :
    (lookupKey logId s.logs = none →
      undoEntry s logId actor fails = .error .invalidState ∧
      step s (.undoL logId actor fails) = s) ∧
    (∀ e, lookupKey logId s.logs = some e → e.owner ≠ actor →
      undoEntry s logId actor fails = .error .invalidState ∧
      step s (.undoL logId actor fails) = s) ∧
    (∀ e, lookupKey logId s.logs = some e → e.reverted = true →
      undoEntry s logId actor fails = .error .invalidState ∧
      step s (.undoL logId actor fails) = s) ∧
    (∀ u, undoEntry s logId actor fails = .ok u → u.failure = none →
      ∀ fb : Nat → Bool, undoEntry u.state logId actor fb = .error .invalidState) := by
  refine ⟨?_, ?_, ?_, ?_⟩
  · intro h
    have he := undoEntry_error_none s logId actor fails h
    exact ⟨he, step_undo_error s logId actor fails he⟩
  · intro e h how
    have he := undoEntry_error_owner s logId actor fails e h how
    exact ⟨he, step_undo_error s logId actor fails he⟩
  · intro e h hrev
    have he := undoEntry_error_reverted s logId actor fails e h hrev
    exact ⟨he, step_undo_error s logId actor fails he⟩
  · intro u h hfull fb
    obtain ⟨e, _, _, _, hlogs, _, _⟩ :=
      undoEntry_ok_full_elim s logId actor fails u h hfull
    apply undoEntry_error_reverted u.state logId actor fb { e with reverted := true }
    · rw [hlogs, lookupKey_cons, if_pos rfl]
    · rfl

/-- Witness for C7: undoing the demo change log entry a second time fails
with InvalidStateError. -/
theorem undo_preconditions_witness :
    undoEntry demoUndoRes.state demoApplyRes.logId "alice" noFail =
      .error .invalidState :=
  (undo_preconditions demoApplyRes.state demoApplyRes.logId "alice"
    noFail).2.2.2 demoUndoRes rfl rfl noFail

/-- C2: from any reachable state, any operation moves a proposal's status
only along the forward chain: creation installs draft, apply moves draft to
applied, undo moves applied to reverted, and otherwise the status is
unchanged; in particular no operation moves a reverted proposal back. -/
theorem proposal_status_forward (s : SystemState) (h : Reachable s) (op : Op)
    (pid : String) :
    statusTransOK (statusOf s pid) (statusOf (step s op) pid) ∧
    (statusOf s pid = some .reverted →
      statusOf (step s op) pid = some .reverted) := by
  have hmain : statusTransOK (statusOf s pid) (statusOf (step s op) pid) := by
    cases op with
    | newProposal pid₂ owner moves =>
      by_cases hl : (lookupKey pid₂ s.proposals).isSome
      · rw [step_new_some s pid₂ owner moves hl]
        exact Or.inl rfl
      · rw [Option.not_isSome_iff_eq_none] at hl
        rw [step_new_none s pid₂ owner moves hl]
        by_cases hpid : pid = pid₂
        · subst hpid
          refine Or.inr (Or.inl ⟨?_, ?_⟩)
          · rw [statusOf_def, hl]
            rfl
          · rw [statusOf_def]
            dsimp only
            rw [lookupKey_cons, if_pos rfl]
            rfl
        · apply Or.inl
          rw [statusOf_def, statusOf_def]
          dsimp only
          rw [lookupKey_cons, if_neg hpid]
    | applyP pid₂ actor fails =>
      cases happ : applyProposal s pid₂ actor fails with
      | error err =>
        unfold step
        dsimp only
        rw [happ]
        exact Or.inl rfl
      | ok r =>
        rw [step_apply_ok s pid₂ actor fails r happ]
        obtain ⟨p, hp, _, hdraft, hr⟩ := applyProposal_ok_elim s pid₂ actor fails r happ
        rw [hr]
        by_cases hpid : pid = pid₂
        · subst hpid
          refine Or.inr (Or.inr (Or.inl ⟨?_, ?_⟩))
          · rw [statusOf_def, hp]
            simp only [Option.map_some', Option.some.injEq]
            exact hdraft
          · rw [statusOf_def]
            dsimp only
            rw [lookupKey_cons, if_pos rfl]
            rfl
        · apply Or.inl
          rw [statusOf_def, statusOf_def]
          dsimp only
          rw [lookupKey_cons, if_neg hpid]
    | undoL logId actor fails =>
      cases hund : undoEntry s logId actor fails with
      | error err =>
        unfold step
        dsimp only
        rw [hund]
        exact Or.inl rfl
      | ok u =>
        rw [step_undo_ok s logId actor fails u hund]
        obtain ⟨e₀, he₀, _, hrev₀, hcase⟩ := undoEntry_ok_cases s logId actor fails u hund
        cases hcase with
        | inr hsame =>
          apply Or.inl
          rw [statusOf_def, statusOf_def, hsame.2]
        | inl hnew =>
          obtain ⟨hstat₀, _⟩ := reachable_entriesOK s h logId e₀ he₀ hrev₀
          obtain ⟨p, hp, happlied⟩ := statusOf_applied_elim s e₀.proposal_id hstat₀
          rw [hp] at hnew
          dsimp only at hnew
          by_cases hpid : pid = e₀.proposal_id
          · subst hpid
            refine Or.inr (Or.inr (Or.inr ⟨?_, ?_⟩))
            · rw [statusOf_def, hp]
              simp only [Option.map_some', Option.some.injEq]
              exact happlied
            · rw [statusOf_def, hnew.2, lookupKey_cons, if_pos rfl]
              rfl
          · apply Or.inl
            rw [statusOf_def, statusOf_def, hnew.2, lookupKey_cons, if_neg hpid]
  refine ⟨hmain, ?_⟩
  intro hrev
  rcases hmain with heq | ⟨ha, _⟩ | ⟨ha, _⟩ | ⟨ha, _⟩
  · rw [← heq]
    exact hrev
  · rw [hrev] at ha
    exact Option.noConfusion ha
  · rw [hrev] at ha
    simp at ha
  · rw [hrev] at ha
    simp at ha

/-- The demo state arises from one creation step out of the empty store. -/
lemma demoState_reachable : Reachable demoState :=
  Reachable.step ⟨[], [], demoDrive, 0⟩
    (.newProposal "p1" "alice" demoProposal.moves) (Reachable.init demoDrive)

/-- Witness for C2: applying the demo proposal takes its status from draft
to applied, an allowed forward transition. -/
theorem proposal_status_forward_witness :
    statusTransOK (statusOf demoState "p1")
      (statusOf (step demoState (.applyP "p1" "alice" noFail)) "p1") :=
  (proposal_status_forward demoState demoState_reachable
    (.applyP "p1" "alice" noFail) "p1").1

/-- C4: when the gateway fails at move k of n during apply (j = k - 1 is the
first failing zero-based index), already-completed moves are not rolled back
(each recorded file, the recorded files being pairwise distinct, still sits
under its recorded new parent), the persisted change log entry contains
exactly the j records of the completed prefix in order, and the failure is
surfaced with the completed versus remaining counts. -/
theorem apply_partial_failure (s : SystemState) (pid actor : String)
    (fails : Nat → Bool) (p : Proposal) (r : ApplyResult) (j : Nat)
    (hp : lookupKey pid s.proposals = some p)
    (h : applyProposal s pid actor fails = .ok r)
    (hj : j < p.moves.length) (hfj : fails j = true)
    (hlt : ∀ k, k < j → fails k = false)
    (hnodup : ((p.moves.take j).map MoveIntent.file_id).Nodup) :
    r.entry.changes.length = j ∧
    r.entry.changes.map MoveRecord.file_id =
      (p.moves.take j).map MoveIntent.file_id ∧
    r.failure = some (j, p.moves.length - j) ∧
    lookupKey r.logId r.state.logs = some r.entry ∧
    ∀ rec ∈ r.entry.changes,
      lookupParents r.state.drive rec.file_id = [rec.new_parent] := by
  obtain ⟨p₂, hp₂, _, _, hr⟩ := applyProposal_ok_elim s pid actor fails r h
  rw [hp] at hp₂
  injection hp₂ with hp₂
  subst hp₂
  have hfj0 : fails (0 + j) = true := by rwa [Nat.zero_add]
  have hlt0 : ∀ k, k < j → fails (0 + k) = false := by
    intro k hk
    rw [Nat.zero_add]
    exact hlt k hk
  obtain ⟨hmap, hok⟩ :=
    applyMoves_first_fail fails p.moves 0 j s.drive [] hj hfj0 hlt0
  have hlen : (applyMoves fails p.moves 0 s.drive []).records.length = j := by
    have hc := congrArg List.length hmap
    simpa [List.length_take, Nat.min_eq_left (Nat.le_of_lt hj)] using hc
  have hnodup₂ :
      ((applyMoves fails p.moves 0 s.drive []).records.map
        MoveRecord.file_id).Nodup := by
    rw [hmap]
    exact hnodup
  subst hr
  dsimp only
  refine ⟨hlen, hmap, ?_, ?_, ?_⟩
  · rw [hok]
    simp [hlen]
  · rw [lookupKey_cons, if_pos rfl]
  · intro rec hrec
    exact applyMoves_no_rollback fails p.moves 0 s.drive [] hnodup₂ rec hrec

/-- Gateway oracle failing exactly at the second move (index 1). -/
def demoFailAt1 : Nat → Bool := fun i => decide (i = 1)

/-- The concrete result of the demo apply run failing at move 2 of 2. -/
def demoPartialRes : ApplyResult :=
  (applyProposal demoState "p1" "alice" demoFailAt1).toOption.getD dfltApplyResult

/-- Witness for C4: the demo apply failing at move 2 of 2 persists exactly
one record and surfaces one completed, one remaining. -/
theorem apply_partial_failure_witness :
    demoPartialRes.entry.changes.length = 1 ∧
    demoPartialRes.entry.changes.map MoveRecord.file_id =
      (demoProposal.moves.take 1).map MoveIntent.file_id ∧
    demoPartialRes.failure = some (1, demoProposal.moves.length - 1) ∧
    lookupKey demoPartialRes.logId demoPartialRes.state.logs =
      some demoPartialRes.entry ∧
    lookupParents demoPartialRes.state.drive "fileA" = ["folder-0"] :=
  ⟨(apply_partial_failure demoState "p1" "alice" demoFailAt1 demoProposal
      demoPartialRes 1 rfl rfl (by decide) rfl
      (fun k hk => by
        have hk0 : k = 0 := by omega
        subst hk0
        rfl)
      (by decide)).1,
   (apply_partial_failure demoState "p1" "alice" demoFailAt1 demoProposal
      demoPartialRes 1 rfl rfl (by decide) rfl
      (fun k hk => by
        have hk0 : k = 0 := by omega
        subst hk0
        rfl)
      (by decide)).2.1,
   (apply_partial_failure demoState "p1" "alice" demoFailAt1 demoProposal
      demoPartialRes 1 rfl rfl (by decide) rfl
      (fun k hk => by
        have hk0 : k = 0 := by omega
        subst hk0
        rfl)
      (by decide)).2.2.1,
   (apply_partial_failure demoState "p1" "alice" demoFailAt1 demoProposal
      demoPartialRes 1 rfl rfl (by decide) rfl
      (fun k hk => by
        have hk0 : k = 0 := by omega
        subst hk0
        rfl)
      (by decide)).2.2.2.1,
   (apply_partial_failure demoState "p1" "alice" demoFailAt1 demoProposal
      demoPartialRes 1 rfl rfl (by decide) rfl
      (fun k hk => by
        have hk0 : k = 0 := by omega
        subst hk0
        rfl)
      (by decide)).2.2.2.2 ⟨"fileA", ["P1"], "folder-0"⟩ (by decide)⟩

/-- C5: within one fully successful apply run, destination-folder resolution
is idempotent per proposed folder name: a name targeted by two or more
file-move intents is resolved (created or found) by exactly one gateway
call, and all intents targeting it receive the same folder id in their
records. -/
theorem folder_resolution_idempotent (s : SystemState) (pid actor : String)
    (fails : Nat → Bool) (p : Proposal) (r : ApplyResult) (nm : String)
    (hp : lookupKey pid s.proposals = some p)
    (h : applyProposal s pid actor fails = .ok r) (hfull : r.failure = none)
    (htwo : 2 ≤ (p.moves.filter (fun m => m.proposed_folder = nm)).length) :
    resolutionsFor nm r.trace = 1 ∧
    ∀ idx₁ idx₂ m₁ m₂, p.moves.get? idx₁ = some m₁ →
      p.moves.get? idx₂ = some m₂ →
      m₁.proposed_folder = nm → m₂.proposed_folder = nm →
      ∃ rec₁ rec₂, r.entry.changes.get? idx₁ = some rec₁ ∧
        r.entry.changes.get? idx₂ = some rec₂ ∧
        rec₁.new_parent = rec₂.new_parent := by
  obtain ⟨p₂, hp₂, _, _, hr⟩ := applyProposal_ok_elim s pid actor fails r h
  rw [hp] at hp₂
  injection hp₂ with hp₂
  subst hp₂
  subst hr
  dsimp only at hfull ⊢
  have hok : (applyMoves fails p.moves 0 s.drive []).ok = true := by
    by_contra hno
    rw [Bool.not_eq_true] at hno
    rw [hno] at hfull
    simp at hfull
  constructor
  · rw [applyMoves_resolutions fails p.moves 0 s.drive [] nm hok]
    have hmem : nm ∈ p.moves.map MoveIntent.proposed_folder := by
      have hpos : 0 < (p.moves.filter (fun m => m.proposed_folder = nm)).length := by
        omega
      obtain ⟨x, hx⟩ := List.exists_mem_of_length_pos hpos
      rw [List.mem_filter] at hx
      have hx2 : x.proposed_folder = nm := by
        have := hx.2
        simpa using this
      rw [← hx2]
      exact List.mem_map_of_mem MoveIntent.proposed_folder hx.1
    simp [lookupKey, hmem]
  · intro idx₁ idx₂ m₁ m₂ h₁ h₂ hm₁ hm₂
    obtain ⟨rec₁, hrec₁, hc₁⟩ :=
      applyMoves_record_newparent fails p.moves 0 s.drive [] hok idx₁ m₁ h₁
    obtain ⟨rec₂, hrec₂, hc₂⟩ :=
      applyMoves_record_newparent fails p.moves 0 s.drive [] hok idx₂ m₂ h₂
    refine ⟨rec₁, rec₂, hrec₁, hrec₂, ?_⟩
    rw [hm₁] at hc₁
    rw [hm₂] at hc₂
    rw [hc₁] at hc₂
    injection hc₂

/-- Witness for C5: the two Receipts intents yield one resolution call and
records sharing the folder id. -/
theorem folder_resolution_idempotent_witness :
    resolutionsFor "Receipts" demoApplyRes.trace = 1 ∧
    demoApplyRes.entry.changes.get? 0 = some ⟨"fileA", ["P1"], "folder-0"⟩ ∧
    demoApplyRes.entry.changes.get? 1 = some ⟨"fileB", ["P1"], "folder-0"⟩ :=
  ⟨(folder_resolution_idempotent demoState "p1" "alice" noFail demoProposal
      demoApplyRes "Receipts" rfl rfl rfl (by decide)).1, rfl, rfl⟩

/-- Witness for C1 on the spec's Receipts example. -/
theorem apply_undo_roundtrip_witness :
    lookupParents demoUndoRes.state.drive "fileA" =
      lookupParents demoState.drive "fileA" ∧
    lookupParents demoUndoRes.state.drive "fileB" =
      lookupParents demoState.drive "fileB" ∧
    lookupKey demoApplyRes.logId demoUndoRes.state.logs =
      some { demoApplyRes.entry with reverted := true } :=
  ⟨(apply_undo_roundtrip demoState "p1" "alice" noFail demoApplyRes rfl rfl
      demoUndoRes rfl).1 "fileA",
   (apply_undo_roundtrip demoState "p1" "alice" noFail demoApplyRes rfl rfl
      demoUndoRes rfl).1 "fileB",
   (apply_undo_roundtrip demoState "p1" "alice" noFail demoApplyRes rfl rfl
      demoUndoRes rfl).2⟩

/-- C8: for the input 0 the TreeList and TreeDiagram copies of
formatFileSize return the empty string and the FileDetailsPanel copy returns
Unknown size; the falsy guard swallows 0, so the zero-bytes branch returning
0 Bytes is unreachable for every input. -/
theorem formatFileSize_zero_guard :
    formatFileSizeTreeList (some 0) = "" ∧
    formatFileSizeTreeDiagram (some 0) = "" ∧
    formatFileSizeFileDetails (some 0) = "Unknown size" ∧
    ∀ b, formatFileSizeBranch b = FFSBranch.falsyGuard ∨
      formatFileSizeBranch b = FFSBranch.scaled := by
  refine ⟨rfl, rfl, rfl, ?_⟩
  intro b
  unfold formatFileSizeBranch
  by_cases h : b = none ∨ b = some 0
  · rw [if_pos h]
    exact Or.inl rfl
  · rw [if_neg h, if_neg (fun hz => h (Or.inr hz))]
    exact Or.inr rfl

theorem transformToD3TreeList_eq_map (l : List TreeNodeData) :
    transformToD3TreeList l = l.map transformToD3Tree := by
  induction l with
  | nil => rfl
  | cons c cs ih =>
    rw [transformToD3TreeList, List.map_cons, ih]

mutual
theorem count_transform (t : TreeNodeData) :
    D3TreeNode.count (transformToD3Tree t) = TreeNodeData.count t := by
  cases t with
  | node id nm ty mt sz ct mdt ps wl ch lvl =>
    cases ch with
    | none => rfl
    | some cs =>
      show 1 + D3TreeNode.countList (transformToD3TreeList cs) =
        1 + TreeNodeData.countList cs
      rw [countList_transform cs]

theorem countList_transform (l : List TreeNodeData) :
    D3TreeNode.countList (transformToD3TreeList l) = TreeNodeData.countList l := by
  cases l with
  | nil => rfl
  | cons c cs =>
    show D3TreeNode.count (transformToD3Tree c) +
        D3TreeNode.countList (transformToD3TreeList cs) =
      TreeNodeData.count c + TreeNodeData.countList cs
    rw [count_transform c, countList_transform cs]
end

/-- C9: transformToD3Tree is a structure-preserving map: the output name is
the input name, the attributes carry exactly the input's id, type,
mime_type, size and level, the children are the recursive image of the
input's children in order and number (empty for a missing children list),
and the total node count is preserved. -/
theorem transformToD3Tree_preserves (t : TreeNodeData) :
    (transformToD3Tree t).name = t.name ∧
    (transformToD3Tree t).attributes =
      ⟨t.nodeId, t.nodeType, t.mimeType, t.size, t.level⟩ ∧
    (transformToD3Tree t).children =
      (t.children.getD []).map transformToD3Tree ∧
    (transformToD3Tree t).children.length = (t.children.getD []).length ∧
    D3TreeNode.count (transformToD3Tree t) = TreeNodeData.count t := by
  cases t with
  | node id nm ty mt sz ct mdt ps wl ch lvl =>
    refine ⟨rfl, rfl, ?_, ?_, count_transform _⟩
    · cases ch with
      | none => rfl
      | some cs =>
        show transformToD3TreeList cs = cs.map transformToD3Tree
        exact transformToD3TreeList_eq_map cs
    · cases ch with
      | none => rfl
      | some cs =>
        show (transformToD3TreeList cs).length = cs.length
        rw [transformToD3TreeList_eq_map cs, List.length_map]

/-- C10: each Next.js proxy route (AI analysis GET, store-token POST, drive
files GET) maps a non-ok backend status to a response with the same status
and the fixed body with error Backend request failed, discarding the
backend's own error body, and maps a thrown fetch to status 500 with error
Internal server error. -/
theorem proxy_error_mapping (st : Nat) (body : Option String)
    (hst : responseOk st = false) :
    aiAnalysisGET (.response st body) =
      ⟨st, .errorObj "Backend request failed"⟩ ∧
    storeTokenPOST (.response st body) =
      ⟨st, .errorObj "Backend request failed"⟩ ∧
    driveFilesGET (.response st body) =
      ⟨st, .errorObj "Backend request failed"⟩ ∧
    aiAnalysisGET .thrown = ⟨500, .errorObj "Internal server error"⟩ ∧
    storeTokenPOST .thrown = ⟨500, .errorObj "Internal server error"⟩ ∧
    driveFilesGET .thrown = ⟨500, .errorObj "Internal server error"⟩ := by
  refine ⟨?_, ?_, ?_, rfl, rfl, rfl⟩
  · unfold aiAnalysisGET
    dsimp only
    rw [hst]
    rfl
  · unfold storeTokenPOST
    dsimp only
    rw [hst]
    rfl
  · unfold driveFilesGET
    dsimp only
    rw [hst]
    rfl

/-- Witness for C10 at a backend 404 whose body is discarded. -/
theorem proxy_error_mapping_witness :
    aiAnalysisGET (.response 404 (some "detail")) =
      ⟨404, .errorObj "Backend request failed"⟩ ∧
    storeTokenPOST (.response 404 (some "detail")) =
      ⟨404, .errorObj "Backend request failed"⟩ ∧
    driveFilesGET (.response 404 (some "detail")) =
      ⟨404, .errorObj "Backend request failed"⟩ ∧
    aiAnalysisGET .thrown = ⟨500, .errorObj "Internal server error"⟩ ∧
    storeTokenPOST .thrown = ⟨500, .errorObj "Internal server error"⟩ ∧
    driveFilesGET .thrown = ⟨500, .errorObj "Internal server error"⟩ :=
  proxy_error_mapping 404 (some "detail") (by decide)

end DriveOrganizer
